import Mathlib

/-!
Verification of the analytic power function of the sQTL simulation repository.

The repository's single piece of engineering content is the Python function

  def analytic_power(n, maf, beta, p_thr, sigma=1.0):
      z_cut = stats.norm.isf(p_thr / 2.0)
      var_g = 2.0 * maf * (1.0 - maf)
      ncp   = beta * np.sqrt(n * var_g) / sigma
      return stats.norm.sf(z_cut - ncp) + stats.norm.cdf(-z_cut - ncp)

We embed it over the reals.  The standard normal CDF is defined as the
Lebesgue integral of the (unnormalised) Gaussian density divided by the
normalising constant, the survival function as 1 - CDF (exactly the relation
the library guarantees), and the inverse survival function as the inverse of
the survival function (picked by choice; on (0,1) it is the unique solution,
as proved below).
-/

open MeasureTheory Set Filter

/-- The unnormalised standard normal density exp (-t^2/2). -/
noncomputable def gaussDensity (t : ℝ) : ℝ := Real.exp (-t ^ 2 / 2)

/-- The standard normal cumulative distribution function (scipy stats.norm.cdf). -/
noncomputable def norm_cdf (x : ℝ) : ℝ :=
  (∫ t in Iic x, gaussDensity t) / Real.sqrt (2 * Real.pi)

/-- The standard normal survival function, SF x = 1 - CDF x (scipy stats.norm.sf). -/
noncomputable def norm_sf (x : ℝ) : ℝ := 1 - norm_cdf x

/-- The standard normal inverse survival function (scipy stats.norm.isf):
the inverse of norm_sf, which on (0,1) returns the unique z with norm_sf z = q. -/
noncomputable def norm_isf (q : ℝ) : ℝ := Function.invFun norm_sf q

/-- The two-sided critical value of analytic_power: z_cut = stats.norm.isf (p_thr / 2). -/
noncomputable def z_cut (p_thr : ℝ) : ℝ := norm_isf (p_thr / 2)

/-- The genotype variance of analytic_power: var_g = 2 * maf * (1 - maf). -/
def var_g (maf : ℝ) : ℝ := 2 * maf * (1 - maf)

/-- The non-centrality parameter of analytic_power: ncp = beta * sqrt (n * var_g) / sigma. -/
noncomputable def ncp (n maf beta sigma : ℝ) : ℝ :=
  beta * Real.sqrt (n * var_g maf) / sigma

/-- The analytic power function, line for line from the source:
sf (z_cut - ncp) + cdf (-z_cut - ncp). -/
noncomputable def analytic_power (n maf beta p_thr sigma : ℝ) : ℝ :=
  norm_sf (z_cut p_thr - ncp n maf beta sigma) +
    norm_cdf (-z_cut p_thr - ncp n maf beta sigma)

/-- The power expressed as a function of the critical value and the
non-centrality parameter alone; analytic_power factors through it. -/
noncomputable def power_of_ncp (z lam : ℝ) : ℝ :=
  norm_sf (z - lam) + norm_cdf (-z - lam)

lemma analytic_power_eq (n maf beta p_thr sigma : ℝ) :
    analytic_power n maf beta p_thr sigma =
      power_of_ncp (z_cut p_thr) (ncp n maf beta sigma) := rfl

/-! ### Basic facts about the Gaussian density -/

lemma gaussDensity_pos (t : ℝ) : 0 < gaussDensity t := Real.exp_pos _

lemma gaussDensity_nonneg (t : ℝ) : 0 ≤ gaussDensity t := (gaussDensity_pos t).le

lemma gaussDensity_le_one (t : ℝ) : gaussDensity t ≤ 1 := by
  rw [gaussDensity, Real.exp_le_one_iff]
  nlinarith [sq_nonneg t]

lemma gaussDensity_neg (t : ℝ) : gaussDensity (-t) = gaussDensity t := by
  simp [gaussDensity]

lemma gaussDensity_le_gaussDensity {s t : ℝ} (h : s ^ 2 ≤ t ^ 2) :
    gaussDensity t ≤ gaussDensity s := by
  rw [gaussDensity, gaussDensity, Real.exp_le_exp]
  linarith

lemma continuous_gaussDensity : Continuous gaussDensity := by
  unfold gaussDensity; fun_prop

lemma integrable_gaussDensity : Integrable gaussDensity := by
  have h := integrable_exp_neg_mul_sq (b := (1 : ℝ) / 2) (by norm_num)
  refine h.congr ?_
  filter_upwards with x
  rw [gaussDensity]
  ring_nf

lemma integral_gaussDensity : ∫ t, gaussDensity t = Real.sqrt (2 * Real.pi) := by
  have h := integral_gaussian ((1 : ℝ) / 2)
  have h2 : (∫ x : ℝ, Real.exp (-(1 / 2) * x ^ 2)) = ∫ t, gaussDensity t := by
    congr 1 with x
    rw [gaussDensity]
    ring_nf
  rw [h2] at h
  rw [h, show Real.pi / (1 / 2) = 2 * Real.pi by ring]

lemma sqrt_two_pi_pos : 0 < Real.sqrt (2 * Real.pi) :=
  Real.sqrt_pos.2 (by positivity)

lemma two_lt_sqrt_two_pi : 2 < Real.sqrt (2 * Real.pi) := by
  rw [Real.lt_sqrt (by norm_num)]
  nlinarith [Real.pi_gt_d6]

lemma sqrt_two_pi_lt : Real.sqrt (2 * Real.pi) < 2.5067 := by
  rw [Real.sqrt_lt' (by norm_num)]
  nlinarith [Real.pi_lt_d6]

lemma sqrt_two_pi_gt : 2.5066 < Real.sqrt (2 * Real.pi) := by
  rw [Real.lt_sqrt (by norm_num)]
  nlinarith [Real.pi_gt_d6]

/-! ### Basic facts about the normal CDF and SF -/

lemma norm_cdf_sub_norm_cdf (a b : ℝ) :
    norm_cdf b - norm_cdf a = (∫ t in a..b, gaussDensity t) / Real.sqrt (2 * Real.pi) := by
  rw [norm_cdf, norm_cdf, div_sub_div_same,
    intervalIntegral.integral_Iic_sub_Iic
      integrable_gaussDensity.integrableOn integrable_gaussDensity.integrableOn]

lemma norm_cdf_nonneg (x : ℝ) : 0 ≤ norm_cdf x := by
  apply div_nonneg _ (Real.sqrt_nonneg _)
  exact setIntegral_nonneg measurableSet_Iic fun t _ => gaussDensity_nonneg t

lemma norm_cdf_le_one (x : ℝ) : norm_cdf x ≤ 1 := by
  rw [norm_cdf, div_le_one sqrt_two_pi_pos, ← integral_gaussDensity]
  exact setIntegral_le_integral integrable_gaussDensity
    (Eventually.of_forall fun t => gaussDensity_nonneg t)

lemma norm_sf_nonneg (x : ℝ) : 0 ≤ norm_sf x := by
  rw [norm_sf]; linarith [norm_cdf_le_one x]

lemma norm_sf_le_one (x : ℝ) : norm_sf x ≤ 1 := by
  rw [norm_sf]; linarith [norm_cdf_nonneg x]

lemma norm_sf_eq_Ioi (x : ℝ) :
    norm_sf x = (∫ t in Ioi x, gaussDensity t) / Real.sqrt (2 * Real.pi) := by
  have hsplit := intervalIntegral.integral_Iic_add_Ioi (b := x)
    integrable_gaussDensity.integrableOn integrable_gaussDensity.integrableOn
  rw [integral_gaussDensity] at hsplit
  rw [norm_sf, norm_cdf, eq_div_iff sqrt_two_pi_pos.ne', sub_mul, one_mul,
    div_mul_cancel₀ _ sqrt_two_pi_pos.ne']
  linarith

lemma norm_cdf_neg (x : ℝ) : norm_cdf (-x) = norm_sf x := by
  rw [norm_cdf, norm_sf_eq_Ioi]
  congr 1
  have h : (∫ t in Iic (-x), gaussDensity (-t)) = ∫ t in Ioi x, gaussDensity t := by
    rw [integral_comp_neg_Iic (-x) gaussDensity, neg_neg]
  rw [← h]
  congr 1 with t
  rw [gaussDensity_neg]

lemma norm_cdf_zero : norm_cdf 0 = 1 / 2 := by
  have h := norm_cdf_neg 0
  rw [neg_zero, norm_sf] at h
  linarith

lemma norm_sf_zero : norm_sf 0 = 1 / 2 := by
  rw [norm_sf, norm_cdf_zero]; norm_num

lemma norm_sf_neg (x : ℝ) : norm_sf (-x) = norm_cdf x := by
  rw [norm_sf, norm_cdf_neg x, norm_sf]
  ring

lemma monotone_norm_cdf : Monotone norm_cdf := by
  intro a b hab
  have h := norm_cdf_sub_norm_cdf a b
  have hint : 0 ≤ ∫ t in a..b, gaussDensity t :=
    intervalIntegral.integral_nonneg hab fun t _ => gaussDensity_nonneg t
  nlinarith [sqrt_two_pi_pos, div_nonneg hint sqrt_two_pi_pos.le]

lemma strictMono_norm_cdf : StrictMono norm_cdf := by
  intro a b hab
  have h := norm_cdf_sub_norm_cdf a b
  have hint : 0 < ∫ t in a..b, gaussDensity t :=
    intervalIntegral.intervalIntegral_pos_of_pos_on
      (continuous_gaussDensity.intervalIntegrable a b)
      (fun t _ => gaussDensity_pos t) hab
  have := div_pos hint sqrt_two_pi_pos
  linarith

lemma strictAnti_norm_sf : StrictAnti norm_sf := by
  intro a b hab
  rw [norm_sf, norm_sf]
  have := strictMono_norm_cdf hab
  linarith

lemma antitone_norm_sf : Antitone norm_sf := strictAnti_norm_sf.antitone

/-! ### Derivative and continuity of the normal CDF -/

lemma norm_cdf_eq_integral_zero (u : ℝ) :
    norm_cdf u = norm_cdf 0 + (∫ t in (0 : ℝ)..u, gaussDensity t) / Real.sqrt (2 * Real.pi) := by
  have h := norm_cdf_sub_norm_cdf 0 u
  linarith

lemma hasDerivAt_norm_cdf (x : ℝ) :
    HasDerivAt norm_cdf (gaussDensity x / Real.sqrt (2 * Real.pi)) x := by
  have h1 : HasDerivAt (fun u => ∫ t in (0 : ℝ)..u, gaussDensity t) (gaussDensity x) x :=
    intervalIntegral.integral_hasDerivAt_right
      (continuous_gaussDensity.intervalIntegrable 0 x)
      (continuous_gaussDensity.stronglyMeasurableAtFilter _ _)
      continuous_gaussDensity.continuousAt
  have h2 := (h1.div_const (Real.sqrt (2 * Real.pi))).const_add (norm_cdf 0)
  have h3 : norm_cdf = fun u =>
      norm_cdf 0 + (∫ t in (0 : ℝ)..u, gaussDensity t) / Real.sqrt (2 * Real.pi) :=
    funext norm_cdf_eq_integral_zero
  rw [h3]
  exact h2

lemma continuous_norm_cdf : Continuous norm_cdf :=
  continuous_iff_continuousAt.2 fun x => (hasDerivAt_norm_cdf x).continuousAt

lemma continuous_norm_sf : Continuous norm_sf :=
  continuous_const.sub continuous_norm_cdf

/-! ### Upper tail bound (Mills ratio) -/

lemma hasDerivAt_neg_gaussDensity (x : ℝ) :
    HasDerivAt (fun t => -gaussDensity t) (x * gaussDensity x) x := by
  have h : HasDerivAt (fun t : ℝ => -t ^ 2 / 2) (-x) x := by
    have := ((hasDerivAt_pow 2 x).neg).div_const 2
    convert this using 1
    ring
  have h2 := (h.exp).neg
  have h3 : (fun t : ℝ => -Real.exp (-t ^ 2 / 2)) = fun t => -gaussDensity t := by
    funext t; rw [gaussDensity]
  rw [← h3]
  convert h2 using 1
  rw [gaussDensity]
  ring

lemma intervalIntegral_gaussDensity_le (t T : ℝ) (ht : 0 < t) (hT : t ≤ T) :
    (∫ x in t..T, gaussDensity x) ≤ gaussDensity t / t := by
  have hcont2 : Continuous fun x : ℝ => x / t * gaussDensity x := by
    unfold gaussDensity; fun_prop
  have hmono : (∫ x in t..T, gaussDensity x) ≤ ∫ x in t..T, x / t * gaussDensity x := by
    apply intervalIntegral.integral_mono_on hT
      (continuous_gaussDensity.intervalIntegrable t T)
      (hcont2.intervalIntegrable t T)
    intro x hx
    have hx1 : t ≤ x := hx.1
    have : (1 : ℝ) ≤ x / t := (one_le_div ht).2 hx1
    nlinarith [gaussDensity_nonneg x]
  have hftc : (∫ x in t..T, x * gaussDensity x) = gaussDensity t - gaussDensity T := by
    have hderiv : ∀ u ∈ uIcc t T, HasDerivAt (fun w => -gaussDensity w) (u * gaussDensity u) u :=
      fun u _ => hasDerivAt_neg_gaussDensity u
    have h0 := intervalIntegral.integral_eq_sub_of_hasDerivAt hderiv
      ((continuous_id.mul continuous_gaussDensity).intervalIntegrable t T)
    rw [h0]; ring
  have heq : (∫ x in t..T, x / t * gaussDensity x) = (gaussDensity t - gaussDensity T) / t := by
    have h1 : (∫ x in t..T, x / t * gaussDensity x) = (1 / t) * ∫ x in t..T, x * gaussDensity x := by
      rw [← intervalIntegral.integral_const_mul]
      congr 1 with x
      ring
    rw [h1, hftc]
    ring
  rw [heq] at hmono
  have hlast : (gaussDensity t - gaussDensity T) / t ≤ gaussDensity t / t :=
    (div_le_div_right ht).2 (by linarith [gaussDensity_nonneg T])
  linarith

lemma integral_Ioi_gaussDensity_le (t : ℝ) (ht : 0 < t) :
    (∫ x in Ioi t, gaussDensity x) ≤ gaussDensity t / t := by
  have htend := MeasureTheory.intervalIntegral_tendsto_integral_Ioi t
    (integrable_gaussDensity.integrableOn) (tendsto_id (α := ℝ))
  apply le_of_tendsto htend
  filter_upwards [eventually_ge_atTop t] with T hT
  exact intervalIntegral_gaussDensity_le t T ht hT

lemma norm_sf_le_mills (t : ℝ) (ht : 0 < t) :
    norm_sf t ≤ gaussDensity t / (t * Real.sqrt (2 * Real.pi)) := by
  rw [norm_sf_eq_Ioi]
  have h' := (le_div_iff₀ ht).1 (integral_Ioi_gaussDensity_le t ht)
  rw [div_le_div_iff₀ sqrt_two_pi_pos (by positivity)]
  calc (∫ x in Ioi t, gaussDensity x) * (t * Real.sqrt (2 * Real.pi))
      = ((∫ x in Ioi t, gaussDensity x) * t) * Real.sqrt (2 * Real.pi) := by ring
    _ ≤ gaussDensity t * Real.sqrt (2 * Real.pi) :=
        mul_le_mul_of_nonneg_right h' sqrt_two_pi_pos.le

lemma norm_sf_le_inv (t : ℝ) (ht : 0 < t) : norm_sf t ≤ 1 / (2 * t) := by
  have h := norm_sf_le_mills t ht
  have h2 : gaussDensity t / (t * Real.sqrt (2 * Real.pi)) ≤ 1 / (2 * t) := by
    rw [div_le_div_iff₀ (by positivity) (by positivity)]
    have := gaussDensity_le_one t
    have := two_lt_sqrt_two_pi
    nlinarith [gaussDensity_nonneg t]
  linarith

/-! ### The inverse survival function on (0,1) -/

lemma exists_norm_sf_eq {q : ℝ} (hq0 : 0 < q) (hq1 : q < 1) : ∃ z, norm_sf z = q := by
  set b : ℝ := 1 / q with hb
  set a : ℝ := -(1 / (1 - q)) with ha
  have hbpos : 0 < b := by positivity
  have hapos : 0 < 1 / (1 - q) := by
    have : 0 < 1 - q := by linarith
    positivity
  have hab : a ≤ b := by
    rw [ha]
    nlinarith
  have hfb : norm_sf b ≤ q := by
    have h := norm_sf_le_inv b hbpos
    have : 1 / (2 * b) = q / 2 := by
      rw [hb]
      field_simp
    rw [this] at h
    linarith
  have hfa : q ≤ norm_sf a := by
    have h := norm_sf_le_inv (1 / (1 - q)) hapos
    have h2 : norm_sf a = 1 - norm_sf (1 / (1 - q)) := by
      rw [ha, norm_sf_neg, norm_sf]
      ring
    have h3 : 1 / (2 * (1 / (1 - q))) = (1 - q) / 2 := by
      field_simp
    rw [h3] at h
    rw [h2]
    linarith
  have hmem : q ∈ Icc (norm_sf b) (norm_sf a) := ⟨hfb, hfa⟩
  have := intermediate_value_Icc' hab continuous_norm_sf.continuousOn hmem
  obtain ⟨z, _, hz⟩ := this
  exact ⟨z, hz⟩

lemma norm_sf_norm_isf {q : ℝ} (hq0 : 0 < q) (hq1 : q < 1) :
    norm_sf (norm_isf q) = q :=
  Function.invFun_eq (exists_norm_sf_eq hq0 hq1)

lemma norm_isf_eq_of_sf {z q : ℝ} (h : norm_sf z = q) : norm_isf q = z := by
  rw [← h, norm_isf]
  exact Function.leftInverse_invFun strictAnti_norm_sf.injective z

lemma norm_isf_pos {q : ℝ} (hq0 : 0 < q) (hq1 : q < 1 / 2) : 0 < norm_isf q := by
  by_contra h
  push_neg at h
  have h2 : norm_sf 0 ≤ norm_sf (norm_isf q) := antitone_norm_sf h
  rw [norm_sf_norm_isf hq0 (by linarith), norm_sf_zero] at h2
  linarith

lemma norm_isf_nonneg {q : ℝ} (hq0 : 0 < q) (hq1 : q ≤ 1 / 2) : 0 ≤ norm_isf q := by
  rcases lt_or_eq_of_le hq1 with h | h
  · exact (norm_isf_pos hq0 h).le
  · rw [h, norm_isf_eq_of_sf norm_sf_zero]

lemma norm_isf_anti {q1 q2 : ℝ} (hq0 : 0 < q1) (h12 : q1 ≤ q2) (hq1 : q2 < 1) :
    norm_isf q2 ≤ norm_isf q1 := by
  by_contra h
  push_neg at h
  have := strictAnti_norm_sf h
  rw [norm_sf_norm_isf hq0 (lt_of_le_of_lt h12 hq1),
    norm_sf_norm_isf (lt_of_lt_of_le hq0 h12) hq1] at this
  linarith

lemma z_cut_pos {p_thr : ℝ} (hp0 : 0 < p_thr) (hp1 : p_thr < 1) : 0 < z_cut p_thr := by
  rw [z_cut]
  exact norm_isf_pos (by linarith) (by linarith)

/-! ### Monotonicity of the power in the non-centrality parameter -/

lemma hasDerivAt_power_of_ncp (z lam : ℝ) :
    HasDerivAt (power_of_ncp z)
      ((gaussDensity (z - lam) - gaussDensity (z + lam)) / Real.sqrt (2 * Real.pi)) lam := by
  have h1 : HasDerivAt (fun l : ℝ => z - l) (-1) lam := by
    simpa using (hasDerivAt_id lam).const_sub z
  have h2 : HasDerivAt (fun l : ℝ => -z - l) (-1) lam := by
    simpa using (hasDerivAt_id lam).const_sub (-z)
  have hc1 := (hasDerivAt_norm_cdf (z - lam)).comp lam h1
  have hc2 := (hasDerivAt_norm_cdf (-z - lam)).comp lam h2
  have hsum := (hc1.const_sub 1).add hc2
  have hfun : (fun l : ℝ =>
      1 - (norm_cdf ∘ fun l : ℝ => z - l) l + (norm_cdf ∘ fun l : ℝ => -z - l) l)
      = power_of_ncp z := by
    funext l
    simp only [Function.comp, power_of_ncp, norm_sf]
  rw [hfun] at hsum
  convert hsum using 1
  have hg : gaussDensity (-z - lam) = gaussDensity (z + lam) := by
    rw [show -z - lam = -(z + lam) by ring, gaussDensity_neg]
  rw [← hg]
  ring

lemma power_of_ncp_neg (z lam : ℝ) : power_of_ncp z (-lam) = power_of_ncp z lam := by
  rw [power_of_ncp, power_of_ncp, sub_neg_eq_add]
  have h1 : norm_sf (z + lam) = norm_cdf (-z - lam) := by
    rw [show -z - lam = -(z + lam) by ring, norm_cdf_neg]
  have h2 : norm_cdf (-z - -lam) = norm_sf (z - lam) := by
    rw [show -z - -lam = -(z - lam) by ring, norm_cdf_neg]
  rw [h1, h2]
  ring

lemma power_of_ncp_abs (z lam : ℝ) : power_of_ncp z |lam| = power_of_ncp z lam := by
  rcases abs_cases lam with ⟨h, _⟩ | ⟨h, _⟩
  · rw [h]
  · rw [h, power_of_ncp_neg]

lemma monotoneOn_power_of_ncp {z : ℝ} (hz : 0 ≤ z) :
    MonotoneOn (power_of_ncp z) (Ici 0) := by
  apply monotoneOn_of_deriv_nonneg (convex_Ici 0)
  · exact fun l _ => ((hasDerivAt_power_of_ncp z l).continuousAt).continuousWithinAt
  · intro l _
    exact ((hasDerivAt_power_of_ncp z l).differentiableAt).differentiableWithinAt
  · intro l hl
    rw [interior_Ici] at hl
    rw [(hasDerivAt_power_of_ncp z l).deriv]
    apply div_nonneg _ sqrt_two_pi_pos.le
    have hle : gaussDensity (z + l) ≤ gaussDensity (z - l) := by
      apply gaussDensity_le_gaussDensity
      nlinarith [mul_nonneg hz hl.le]
    linarith

lemma power_of_ncp_le_of_abs_le {z l1 l2 : ℝ} (hz : 0 ≤ z) (h : |l1| ≤ |l2|) :
    power_of_ncp z l1 ≤ power_of_ncp z l2 := by
  rw [← power_of_ncp_abs z l1, ← power_of_ncp_abs z l2]
  exact monotoneOn_power_of_ncp hz (abs_nonneg l1) (abs_nonneg l2) h

/-! ### Reference definition from the specification (used by claim C1) -/

/-- The specification's reference power formula, written out step by step from
the spec's own words: z_cut is the standard normal inverse survival function at
p_thr/2, var_g = 2*maf*(1-maf), ncp = beta*sqrt(n*var_g)/sigma, and
power = SF (z_cut - ncp) + CDF (-z_cut - ncp) with SF x = 1 - CDF x. -/
noncomputable def power_ref (n maf beta p_thr sigma : ℝ) : ℝ :=
  (1 - norm_cdf (norm_isf (p_thr / 2) - beta * Real.sqrt (n * (2 * maf * (1 - maf))) / sigma)) +
    norm_cdf (-norm_isf (p_thr / 2) - beta * Real.sqrt (n * (2 * maf * (1 - maf))) / sigma)

/-- C1: for every valid input, analytic_power coincides with the reference
definition SF (z_cut - ncp) + CDF (-z_cut - ncp) from the specification. -/
theorem power_matches_reference (n maf beta p_thr sigma : ℝ)
    (hn : 0 ≤ n) (hm0 : 0 < maf) (hm1 : maf ≤ 1 / 2)
    (hp0 : 0 < p_thr) (hp1 : p_thr < 1) (hs : 0 < sigma) :
    analytic_power n maf beta p_thr sigma = power_ref n maf beta p_thr sigma := rfl

theorem power_matches_reference_witness :
    (0 : ℝ) ≤ 1800 ∧ (0 : ℝ) < 1 / 5 ∧ (1 / 5 : ℝ) ≤ 1 / 2 ∧ (0 : ℝ) < 1 / 2 ∧
      (1 / 2 : ℝ) < 1 ∧ (0 : ℝ) < 1 ∧
      analytic_power 1800 (1 / 5) (6 / 25) (1 / 2) 1 = power_ref 1800 (1 / 5) (6 / 25) (1 / 2) 1 :=
  ⟨by norm_num, by norm_num, by norm_num, by norm_num, by norm_num, by norm_num,
    power_matches_reference 1800 (1 / 5) (6 / 25) (1 / 2) 1 (by norm_num) (by norm_num)
      (by norm_num) (by norm_num) (by norm_num) (by norm_num)⟩

/-! ### Claim C2: monotonicity -/

lemma var_g_pos {maf : ℝ} (hm0 : 0 < maf) (hm1 : maf ≤ 1 / 2) : 0 < var_g maf := by
  rw [var_g]; nlinarith

lemma abs_ncp (n maf beta sigma : ℝ) (hs : 0 < sigma) :
    |ncp n maf beta sigma| = |beta| * Real.sqrt (n * var_g maf) / sigma := by
  rw [ncp, abs_div, abs_mul, abs_of_nonneg (Real.sqrt_nonneg _), abs_of_pos hs]

/-- C2: the power is non-decreasing in the absolute effect size, in the sample
size, and in the significance threshold, the other inputs held fixed at valid
values. -/
theorem power_monotone :
    (∀ n maf p_thr sigma b1 b2 : ℝ, 0 ≤ n → 0 < maf → maf ≤ 1 / 2 → 0 < p_thr →
      p_thr < 1 → 0 < sigma → |b1| ≤ |b2| →
      analytic_power n maf b1 p_thr sigma ≤ analytic_power n maf b2 p_thr sigma) ∧
    (∀ maf beta p_thr sigma n1 n2 : ℝ, 0 < maf → maf ≤ 1 / 2 → 0 < p_thr → p_thr < 1 →
      0 < sigma → 0 ≤ n1 → n1 ≤ n2 →
      analytic_power n1 maf beta p_thr sigma ≤ analytic_power n2 maf beta p_thr sigma) ∧
    (∀ n maf beta sigma p1 p2 : ℝ, 0 ≤ n → 0 < maf → maf ≤ 1 / 2 → 0 < sigma →
      0 < p1 → p1 ≤ p2 → p2 < 1 →
      analytic_power n maf beta p1 sigma ≤ analytic_power n maf beta p2 sigma) := by
  refine ⟨?_, ?_, ?_⟩
  · intro n maf p_thr sigma b1 b2 _ _ _ hp0 hp1 hs hb
    rw [analytic_power_eq, analytic_power_eq]
    apply power_of_ncp_le_of_abs_le (z_cut_pos hp0 hp1).le
    rw [abs_ncp n maf b1 sigma hs, abs_ncp n maf b2 sigma hs]
    exact (div_le_div_right hs).2 (mul_le_mul_of_nonneg_right hb (Real.sqrt_nonneg _))
  · intro maf beta p_thr sigma n1 n2 hm0 hm1 hp0 hp1 hs _ h12
    rw [analytic_power_eq, analytic_power_eq]
    apply power_of_ncp_le_of_abs_le (z_cut_pos hp0 hp1).le
    rw [abs_ncp n1 maf beta sigma hs, abs_ncp n2 maf beta sigma hs]
    have hv := (var_g_pos hm0 hm1).le
    have hsq : Real.sqrt (n1 * var_g maf) ≤ Real.sqrt (n2 * var_g maf) :=
      Real.sqrt_le_sqrt (mul_le_mul_of_nonneg_right h12 hv)
    exact (div_le_div_right hs).2 (mul_le_mul_of_nonneg_left hsq (abs_nonneg beta))
  · intro n maf beta sigma p1 p2 _ _ _ _ hp0 h12 hp1
    have hz : z_cut p2 ≤ z_cut p1 := by
      rw [z_cut, z_cut]
      exact norm_isf_anti (by linarith) (by linarith) (by linarith)
    rw [analytic_power_eq, analytic_power_eq, power_of_ncp, power_of_ncp]
    exact add_le_add (antitone_norm_sf (by linarith)) (monotone_norm_cdf (by linarith))

theorem power_monotone_witness :
    analytic_power 1800 (1 / 5) 0 (1 / 2) 1 ≤ analytic_power 1800 (1 / 5) 1 (1 / 2) 1 ∧
      analytic_power 100 (1 / 5) 1 (1 / 2) 1 ≤ analytic_power 1800 (1 / 5) 1 (1 / 2) 1 ∧
      analytic_power 1800 (1 / 5) 1 (1 / 4) 1 ≤ analytic_power 1800 (1 / 5) 1 (1 / 2) 1 :=
  ⟨power_monotone.1 1800 (1 / 5) (1 / 2) 1 0 1 (by norm_num) (by norm_num) (by norm_num)
      (by norm_num) (by norm_num) (by norm_num) (by norm_num),
    power_monotone.2.1 (1 / 5) 1 (1 / 2) 1 100 1800 (by norm_num) (by norm_num) (by norm_num)
      (by norm_num) (by norm_num) (by norm_num) (by norm_num),
    power_monotone.2.2 1800 (1 / 5) 1 1 (1 / 4) (1 / 2) (by norm_num) (by norm_num) (by norm_num)
      (by norm_num) (by norm_num) (by norm_num) (by norm_num)⟩

/-! ### Claim C3: the power is a probability -/

/-- C3: for every valid input the returned power lies in the closed unit interval. -/
theorem power_mem_unit_interval (n maf beta p_thr sigma : ℝ)
    (hn : 0 ≤ n) (hm0 : 0 < maf) (hm1 : maf ≤ 1 / 2)
    (hp0 : 0 < p_thr) (hp1 : p_thr < 1) (hs : 0 < sigma) :
    0 ≤ analytic_power n maf beta p_thr sigma ∧ analytic_power n maf beta p_thr sigma ≤ 1 := by
  constructor
  · exact add_nonneg (norm_sf_nonneg _) (norm_cdf_nonneg _)
  · rw [analytic_power_eq, power_of_ncp]
    have hz := (z_cut_pos hp0 hp1).le
    have hcmp : norm_cdf (-z_cut p_thr - ncp n maf beta sigma) ≤
        norm_cdf (z_cut p_thr - ncp n maf beta sigma) := monotone_norm_cdf (by linarith)
    rw [norm_sf]
    linarith

theorem power_mem_unit_interval_witness :
    0 ≤ analytic_power 1800 (1 / 5) (6 / 25) (1 / 2) 1 ∧
      analytic_power 1800 (1 / 5) (6 / 25) (1 / 2) 1 ≤ 1 :=
  power_mem_unit_interval 1800 (1 / 5) (6 / 25) (1 / 2) 1 (by norm_num) (by norm_num)
    (by norm_num) (by norm_num) (by norm_num) (by norm_num)

/-! ### Claim C4: the null case -/

/-- C4: whenever the non-centrality parameter vanishes (beta = 0, or maf = 0,
or maf = 1, or n = 0), the power equals the threshold p_thr exactly. -/
theorem power_null_case (n maf beta p_thr sigma : ℝ)
    (hp0 : 0 < p_thr) (hp1 : p_thr < 1)
    (h : beta = 0 ∨ maf = 0 ∨ maf = 1 ∨ n = 0) :
    analytic_power n maf beta p_thr sigma = p_thr := by
  have hncp : ncp n maf beta sigma = 0 := by
    rcases h with h | h | h | h <;> simp [ncp, var_g, h]
  rw [analytic_power_eq, hncp, power_of_ncp, sub_zero, sub_zero, norm_cdf_neg]
  have hsf : norm_sf (z_cut p_thr) = p_thr / 2 := by
    rw [z_cut]
    exact norm_sf_norm_isf (by linarith) (by linarith)
  rw [hsf]
  ring

theorem power_null_case_witness :
    (0 : ℝ) < 1 / 2 ∧ (1 / 2 : ℝ) < 1 ∧
      analytic_power 1800 (1 / 5) 0 (1 / 2) 1 = 1 / 2 :=
  ⟨by norm_num, by norm_num,
    power_null_case 1800 (1 / 5) 0 (1 / 2) 1 (by norm_num) (by norm_num) (Or.inl rfl)⟩

/-! ### Claim C6: symmetry in the sign of beta -/

/-- C6: the power is invariant under flipping the sign of the effect size. -/
theorem power_symmetric_in_beta (n maf beta p_thr sigma : ℝ) :
    analytic_power n maf beta p_thr sigma = analytic_power n maf (-beta) p_thr sigma := by
  rw [analytic_power_eq, analytic_power_eq]
  have h : ncp n maf (-beta) sigma = -ncp n maf beta sigma := by
    rw [ncp, ncp]; ring
  rw [h, power_of_ncp_neg]

/-! ### Claim C8: determinism -/

/-- C8: analytic_power is a pure function of its five arguments: two calls on
identical arguments return identical results. -/
theorem power_deterministic (n maf beta p_thr sigma n' maf' beta' p_thr' sigma' : ℝ)
    (h1 : n = n') (h2 : maf = maf') (h3 : beta = beta') (h4 : p_thr = p_thr')
    (h5 : sigma = sigma') :
    analytic_power n maf beta p_thr sigma = analytic_power n' maf' beta' p_thr' sigma' := by
  rw [h1, h2, h3, h4, h5]

theorem power_deterministic_witness :
    analytic_power 1800 (1 / 5) (6 / 25) (1 / 2) 1 =
      analytic_power 1800 (1 / 5) (6 / 25) (1 / 2) 1 :=
  power_deterministic 1800 (1 / 5) (6 / 25) (1 / 2) 1 1800 (1 / 5) (6 / 25) (1 / 2) 1
    rfl rfl rfl rfl rfl

/-! ### Claim C9: the power depends on (n, maf, beta, sigma) only through ncp -/

/-- C9: two parameter tuples with the same threshold and the same
non-centrality parameter give the same power; in particular the power is
invariant under maf to 1 - maf and under rescaling (beta, sigma) to
(beta/sigma, 1). -/
theorem power_depends_only_on_ncp :
    (∀ n1 maf1 b1 s1 n2 maf2 b2 s2 p_thr : ℝ,
      ncp n1 maf1 b1 s1 = ncp n2 maf2 b2 s2 →
      analytic_power n1 maf1 b1 p_thr s1 = analytic_power n2 maf2 b2 p_thr s2) ∧
    (∀ n maf beta p_thr sigma : ℝ, 0 ≤ maf → maf ≤ 1 →
      analytic_power n maf beta p_thr sigma = analytic_power n (1 - maf) beta p_thr sigma) ∧
    (∀ n maf beta p_thr sigma : ℝ, 0 < sigma →
      analytic_power n maf beta p_thr sigma = analytic_power n maf (beta / sigma) p_thr 1) := by
  refine ⟨?_, ?_, ?_⟩
  · intro n1 maf1 b1 s1 n2 maf2 b2 s2 p_thr h
    rw [analytic_power_eq, analytic_power_eq, h]
  · intro n maf beta p_thr sigma _ _
    rw [analytic_power_eq, analytic_power_eq]
    have h : ncp n (1 - maf) beta sigma = ncp n maf beta sigma := by
      rw [ncp, ncp, var_g, var_g]
      ring_nf
    rw [h]
  · intro n maf beta p_thr sigma hs
    rw [analytic_power_eq, analytic_power_eq]
    have h : ncp n maf (beta / sigma) 1 = ncp n maf beta sigma := by
      rw [ncp, ncp]
      field_simp
    rw [h]

theorem power_depends_only_on_ncp_witness :
    analytic_power 1800 (1 / 5) (6 / 25) (1 / 2) 1 =
        analytic_power 1800 (1 / 5) (6 / 25) (1 / 2) 1 ∧
      analytic_power 1800 (1 / 5) (6 / 25) (1 / 2) 1 =
        analytic_power 1800 (4 / 5) (6 / 25) (1 / 2) 1 ∧
      analytic_power 1800 (1 / 5) (6 / 25) (1 / 2) 2 =
        analytic_power 1800 (1 / 5) (6 / 25 / 2) (1 / 2) 1 :=
  ⟨power_depends_only_on_ncp.1 1800 (1 / 5) (6 / 25) 1 1800 (1 / 5) (6 / 25) 1 (1 / 2) rfl,
    by
      have h := power_depends_only_on_ncp.2.1 1800 (1 / 5) (6 / 25) (1 / 2) 1
        (by norm_num) (by norm_num)
      rw [show (4 : ℝ) / 5 = 1 - 1 / 5 by norm_num]
      exact h,
    power_depends_only_on_ncp.2.2 1800 (1 / 5) (6 / 25) (1 / 2) 2 (by norm_num)⟩

/-! ### Claims C5 and C10: no domain validation; partiality model -/

open Classical in
/-- Partiality model of the source function.  The Python body performs no
domain validation and contains no raise statement; the only way a call can
fail to produce an ordinary real number is for a library primitive to leave
its domain (the inverse survival function needs p_thr/2 in (0,1), the real
square root a nonnegative argument, the division a nonzero sigma), in which
case a non-finite float propagates.  none models such a non-finite result;
some r models an ordinary return. -/
noncomputable def analytic_power_opt (n maf beta p_thr sigma : ℝ) : Option ℝ :=
  if 0 < p_thr / 2 ∧ p_thr / 2 < 1 ∧ 0 ≤ n * var_g maf ∧ sigma ≠ 0 then
    some (analytic_power n maf beta p_thr sigma)
  else none

/-- C10: analytic_power has no validation branch and is total on the strictly
larger domain p_thr in (0,2), n * var_g maf nonnegative, sigma nonzero: there
it returns the real number computed by the closed-form formula. -/
theorem power_total_on_larger_domain (n maf beta p_thr sigma : ℝ)
    (hp0 : 0 < p_thr / 2) (hp1 : p_thr / 2 < 1) (hv : 0 ≤ n * var_g maf) (hs : sigma ≠ 0) :
    analytic_power_opt n maf beta p_thr sigma =
      some (analytic_power n maf beta p_thr sigma) := by
  rw [analytic_power_opt, if_pos ⟨hp0, hp1, hv, hs⟩]

theorem power_total_on_larger_domain_witness :
    (0 : ℝ) < 3 / 2 / 2 ∧ (3 / 2 / 2 : ℝ) < 1 ∧ (0 : ℝ) ≤ 1800 * var_g (1 / 5) ∧
      (1 : ℝ) ≠ 0 ∧
      analytic_power_opt 1800 (1 / 5) (6 / 25) (3 / 2) 1 =
        some (analytic_power 1800 (1 / 5) (6 / 25) (3 / 2) 1) :=
  ⟨by norm_num, by norm_num, by norm_num [var_g], by norm_num,
    power_total_on_larger_domain 1800 (1 / 5) (6 / 25) (3 / 2) 1 (by norm_num) (by norm_num)
      (by norm_num [var_g]) (by norm_num)⟩

/-- C5 counterexample: a call with the invalid threshold p_thr = 1.5 does not
raise; it returns the ordinary value 1.5 (with n = 0 the non-centrality
parameter vanishes and the formula yields 2 * (p_thr/2) = p_thr). -/
theorem power_returns_value_at_invalid_threshold :
    analytic_power_opt 0 (1 / 5) (6 / 25) (3 / 2) 1 = some (3 / 2) := by
  have hncp : ncp 0 (1 / 5) (6 / 25) 1 = 0 := by simp [ncp]
  have hval : analytic_power 0 (1 / 5) (6 / 25) (3 / 2) 1 = 3 / 2 := by
    rw [analytic_power_eq, hncp, power_of_ncp, sub_zero, sub_zero, norm_cdf_neg]
    have hsf : norm_sf (z_cut (3 / 2)) = 3 / 4 := by
      rw [z_cut, show (3 : ℝ) / 2 / 2 = 3 / 4 by norm_num]
      exact norm_sf_norm_isf (by norm_num) (by norm_num)
    rw [hsf]; norm_num
  rw [analytic_power_opt, if_pos ⟨by norm_num, by norm_num, by norm_num [var_g], by norm_num⟩,
    hval]

/-- C5 (amended): analytic_power performs no domain validation: at the invalid
threshold p_thr = 1.5 it still returns an ordinary value (never a DomainError)
whenever the library primitives stay defined. -/
theorem power_no_domain_validation (n maf beta sigma : ℝ)
    (hv : 0 ≤ n * var_g maf) (hs : sigma ≠ 0) :
    ∃ r : ℝ, analytic_power_opt n maf beta (3 / 2) sigma = some r :=
  ⟨_, by rw [analytic_power_opt, if_pos ⟨by norm_num, by norm_num, hv, hs⟩]⟩

theorem power_no_domain_validation_witness :
    (0 : ℝ) ≤ 0 * var_g (1 / 5) ∧ (1 : ℝ) ≠ 0 ∧
      ∃ r : ℝ, analytic_power_opt 0 (1 / 5) (6 / 25) (3 / 2) 1 = some r :=
  ⟨by norm_num [var_g], by norm_num,
    power_no_domain_validation 0 (1 / 5) (6 / 25) 1 (by norm_num [var_g]) (by norm_num)⟩

/-! ### Numeric bounds on the Gaussian density and tails -/

lemma hasDerivAt_gaussDensity (x : ℝ) :
    HasDerivAt gaussDensity (-x * gaussDensity x) x := by
  have h : HasDerivAt (fun t : ℝ => -t ^ 2 / 2) (-x) x := by
    have h0 := ((hasDerivAt_pow 2 x).neg).div_const 2
    convert h0 using 1
    ring
  have h2 := h.exp
  have h3 : (fun t : ℝ => Real.exp (-t ^ 2 / 2)) = gaussDensity := by
    funext t; rw [gaussDensity]
  rw [h3] at h2
  convert h2 using 1
  rw [gaussDensity]
  ring

lemma gaussDensity_le_of_ge {t : ℝ} (m : ℕ) (hm : (m : ℝ) ≤ t ^ 2 / 2) :
    gaussDensity t ≤ 1 / (2.7182818283 : ℝ) ^ m := by
  have h1 : (2.7182818283 : ℝ) ^ m ≤ Real.exp 1 ^ m :=
    pow_le_pow_left (by norm_num) Real.exp_one_gt_d9.le m
  have h2 : Real.exp 1 ^ m = Real.exp (m : ℝ) := by
    rw [← Real.exp_nat_mul, mul_one]
  have h3 : gaussDensity t ≤ Real.exp (-(m : ℝ)) := by
    rw [gaussDensity, Real.exp_le_exp]
    linarith
  have h4 : Real.exp (-(m : ℝ)) = 1 / Real.exp (m : ℝ) := by
    rw [Real.exp_neg, one_div]
  have h5 : 1 / Real.exp (m : ℝ) ≤ 1 / (2.7182818283 : ℝ) ^ m := by
    apply one_div_le_one_div_of_le (by positivity)
    rw [← h2]
    exact h1
  linarith

lemma le_gaussDensity_of_le {t : ℝ} (m : ℕ) (hm : t ^ 2 / 2 ≤ (m : ℝ)) :
    1 / (2.7182818286 : ℝ) ^ m ≤ gaussDensity t := by
  have h1 : Real.exp 1 ^ m ≤ (2.7182818286 : ℝ) ^ m :=
    pow_le_pow_left (Real.exp_pos 1).le Real.exp_one_lt_d9.le m
  have h2 : Real.exp 1 ^ m = Real.exp (m : ℝ) := by
    rw [← Real.exp_nat_mul, mul_one]
  have h3 : Real.exp (-(m : ℝ)) ≤ gaussDensity t := by
    rw [gaussDensity, Real.exp_le_exp]
    linarith
  have h4 : Real.exp (-(m : ℝ)) = 1 / Real.exp (m : ℝ) := by
    rw [Real.exp_neg, one_div]
  have h5 : 1 / (2.7182818286 : ℝ) ^ m ≤ 1 / Real.exp (m : ℝ) := by
    apply one_div_le_one_div_of_le (Real.exp_pos _)
    rw [← h2]
    exact h1
  linarith

lemma norm_sf_lt_num {t c : ℝ} (m : ℕ) (ht : 0 < t) (hm : (m : ℝ) ≤ t ^ 2 / 2)
    (hc : 1 / (2.7182818283 : ℝ) ^ m < t * (5 / 2) * c) : norm_sf t < c := by
  have hc0 : 0 < c := by
    rcases le_or_lt c 0 with h | h
    · exfalso
      have h1 : (0 : ℝ) < 1 / (2.7182818283 : ℝ) ^ m := by positivity
      nlinarith
    · exact h
  have h1 := norm_sf_le_mills t ht
  have h2 := gaussDensity_le_of_ge m hm
  have h3 : gaussDensity t / (t * Real.sqrt (2 * Real.pi)) < c := by
    rw [div_lt_iff (by positivity)]
    have h5 : (5 / 2 : ℝ) ≤ Real.sqrt (2 * Real.pi) := by linarith [sqrt_two_pi_gt]
    have h6 := mul_le_mul_of_nonneg_left h5 (mul_pos ht hc0).le
    nlinarith [h6]
  linarith

lemma norm_sf_pos (x : ℝ) : 0 < norm_sf x := by
  have h := strictAnti_norm_sf (show x < x + 1 by linarith)
  linarith [norm_sf_nonneg (x + 1)]

lemma norm_cdf_pos (x : ℝ) : 0 < norm_cdf x := by
  rw [← norm_sf_neg]
  exact norm_sf_pos (-x)

/-! ### Lower bound on the upper tail, via the antiderivative
(x⁻¹ - x⁻³) * gaussDensity x of (1 - 3 x⁻⁴) * gaussDensity x -/

noncomputable def millsAux (x : ℝ) : ℝ := (x⁻¹ - x⁻¹ ^ 3) * gaussDensity x

lemma hasDerivAt_neg_millsAux {x : ℝ} (hx : x ≠ 0) :
    HasDerivAt (fun u => -millsAux u) ((1 - 3 * x⁻¹ ^ 4) * gaussDensity x) x := by
  have hinv : HasDerivAt (fun u : ℝ => u⁻¹) (-(x ^ 2)⁻¹) x := hasDerivAt_inv hx
  have hinv3 : HasDerivAt (fun u : ℝ => u⁻¹ ^ 3)
      (3 * (x⁻¹) ^ 2 * -(x ^ 2)⁻¹) x := by
    simpa using hinv.pow 3
  have hsub := hinv.sub hinv3
  have hmul := hsub.mul (hasDerivAt_gaussDensity x)
  have hneg := hmul.neg
  have hfun : (fun u : ℝ => -((u⁻¹ - u⁻¹ ^ 3) * gaussDensity u)) = fun u => -millsAux u := by
    funext u; rw [millsAux]
  rw [hfun] at hneg
  convert hneg using 1
  field_simp
  ring

lemma millsAux_sub_le_intervalIntegral {a b : ℝ} (ha : 0 < a) (hab : a ≤ b) :
    millsAux a - millsAux b ≤ ∫ x in a..b, gaussDensity x := by
  have hne : ∀ x ∈ Icc a b, x ≠ 0 := fun x hx => (lt_of_lt_of_le ha hx.1).ne'
  have hcont : ContinuousOn (fun x : ℝ => (1 - 3 * x⁻¹ ^ 4) * gaussDensity x) (Icc a b) := by
    apply ContinuousOn.mul
    · apply ContinuousOn.sub continuousOn_const
      apply ContinuousOn.mul continuousOn_const
      apply ContinuousOn.pow
      exact ContinuousOn.inv₀ continuousOn_id hne
    · exact continuous_gaussDensity.continuousOn
  have hint : IntervalIntegrable (fun x : ℝ => (1 - 3 * x⁻¹ ^ 4) * gaussDensity x)
      volume a b := by
    apply ContinuousOn.intervalIntegrable
    rw [uIcc_of_le hab]
    exact hcont
  have hftc : (∫ x in a..b, (1 - 3 * x⁻¹ ^ 4) * gaussDensity x)
      = -millsAux b - -millsAux a := by
    apply intervalIntegral.integral_eq_sub_of_hasDerivAt
    · intro x hx
      rw [uIcc_of_le hab] at hx
      exact hasDerivAt_neg_millsAux (hne x hx)
    · exact hint
  have hmono : (∫ x in a..b, (1 - 3 * x⁻¹ ^ 4) * gaussDensity x)
      ≤ ∫ x in a..b, gaussDensity x := by
    apply intervalIntegral.integral_mono_on hab hint
      (continuous_gaussDensity.intervalIntegrable a b)
    intro x hx
    have h4 : (0 : ℝ) ≤ 3 * x⁻¹ ^ 4 := by positivity
    nlinarith [gaussDensity_nonneg x]
  linarith [hftc, hmono]

lemma millsAux_sub_le_norm_sf {a b : ℝ} (ha : 0 < a) (hab : a ≤ b) :
    (millsAux a - millsAux b) / Real.sqrt (2 * Real.pi) ≤ norm_sf a := by
  rw [norm_sf_eq_Ioi]
  have h1 : (∫ x in a..b, gaussDensity x) ≤ ∫ x in Ioi a, gaussDensity x := by
    rw [intervalIntegral.integral_of_le hab]
    apply setIntegral_mono_set integrable_gaussDensity.integrableOn
      (Eventually.of_forall fun t => gaussDensity_nonneg t)
    exact HasSubset.Subset.eventuallyLE Ioc_subset_Ioi_self
  have h2 := millsAux_sub_le_intervalIntegral ha hab
  exact (div_le_div_right sqrt_two_pi_pos).2 (by linarith)

lemma norm_cdf_eq_half_add (x : ℝ) :
    norm_cdf x = 1 / 2 + (∫ t in (0 : ℝ)..x, gaussDensity t) / Real.sqrt (2 * Real.pi) := by
  rw [norm_cdf_eq_integral_zero, norm_cdf_zero]

lemma intervalIntegral_gaussDensity_lower {x : ℝ} (hx : 0 ≤ x) :
    x * gaussDensity x ≤ ∫ t in (0 : ℝ)..x, gaussDensity t := by
  have h := intervalIntegral.integral_mono_on hx
    (intervalIntegrable_const :
      IntervalIntegrable (fun _ => gaussDensity x) volume 0 x)
    (continuous_gaussDensity.intervalIntegrable 0 x)
    (fun t ht => gaussDensity_le_gaussDensity (by nlinarith [ht.1, ht.2]))
  simpa using h

lemma intervalIntegral_gaussDensity_upper {x : ℝ} (hx : 0 ≤ x) :
    (∫ t in (0 : ℝ)..x, gaussDensity t) ≤ x := by
  have h := intervalIntegral.integral_mono_on hx
    (continuous_gaussDensity.intervalIntegrable 0 x)
    (intervalIntegrable_const : IntervalIntegrable (fun _ => (1 : ℝ)) volume 0 x)
    (fun t _ => gaussDensity_le_one t)
  simpa using h

lemma half_add_le_norm_cdf {x : ℝ} (hx : 0 ≤ x) :
    1 / 2 + x * gaussDensity x / 2.5067 ≤ norm_cdf x := by
  rw [norm_cdf_eq_half_add]
  have h1 := intervalIntegral_gaussDensity_lower hx
  have h2 : x * gaussDensity x / 2.5067 ≤ x * gaussDensity x / Real.sqrt (2 * Real.pi) := by
    exact div_le_div_of_nonneg_left (mul_nonneg hx (gaussDensity_nonneg x))
      sqrt_two_pi_pos sqrt_two_pi_lt.le
  have h3 : x * gaussDensity x / Real.sqrt (2 * Real.pi)
      ≤ (∫ t in (0 : ℝ)..x, gaussDensity t) / Real.sqrt (2 * Real.pi) :=
    (div_le_div_right sqrt_two_pi_pos).2 h1
  linarith

lemma norm_cdf_le_half_add {x : ℝ} (hx : 0 ≤ x) :
    norm_cdf x ≤ 1 / 2 + x / 2.5066 := by
  rw [norm_cdf_eq_half_add]
  have h1 := intervalIntegral_gaussDensity_upper hx
  have h0 : 0 ≤ ∫ t in (0 : ℝ)..x, gaussDensity t :=
    intervalIntegral.integral_nonneg hx fun t _ => gaussDensity_nonneg t
  have h2 : (∫ t in (0 : ℝ)..x, gaussDensity t) / Real.sqrt (2 * Real.pi)
      ≤ (∫ t in (0 : ℝ)..x, gaussDensity t) / 2.5066 := by
    apply div_le_div_of_nonneg_left h0 (by norm_num) sqrt_two_pi_gt.le
  have h3 : (∫ t in (0 : ℝ)..x, gaussDensity t) / 2.5066 ≤ x / 2.5066 :=
    (div_le_div_right (by norm_num)).2 h1
  linarith

/-! ### Concrete bounds at the spec's scenario (claim C7):
n = 1800, maf = 0.20, p_thr = 6e-8, sigma = 1, beta = 0.24 resp. 0.15 -/

lemma one_sub_le_gaussDensity (t : ℝ) : 1 - t ^ 2 / 2 ≤ gaussDensity t := by
  have h := Real.add_one_le_exp (-t ^ 2 / 2)
  rw [gaussDensity]
  linarith

lemma zc_scenario_eq : z_cut (6 / 10 ^ 8) = norm_isf (3 / 10 ^ 8) := by
  rw [z_cut, show (6 : ℝ) / 10 ^ 8 / 2 = 3 / 10 ^ 8 by norm_num]

lemma norm_sf_zc_scenario : norm_sf (z_cut (6 / 10 ^ 8)) = 3 / 10 ^ 8 := by
  rw [zc_scenario_eq]
  exact norm_sf_norm_isf (by norm_num) (by norm_num)

lemma zc_scenario_lt : z_cut (6 / 10 ^ 8) < 28 / 5 := by
  have hsf : norm_sf (28 / 5) < 3 / 10 ^ 8 := by
    apply norm_sf_lt_num 15 (by norm_num) (by norm_num)
    norm_num
  by_contra h
  push_neg at h
  have h2 := antitone_norm_sf h
  rw [norm_sf_zc_scenario] at h2
  linarith

lemma zc_scenario_gt : 26 / 5 < z_cut (6 / 10 ^ 8) := by
  have hg52 := le_gaussDensity_of_le (t := 26 / 5) 14 (by norm_num)
  have hg8 := gaussDensity_le_of_ge (t := (8 : ℝ)) 32 (by norm_num)
  have hm52 : (5 / 26 - (5 / 26) ^ 3) * (1 / (2.7182818286 : ℝ) ^ 14) ≤ millsAux (26 / 5) := by
    rw [millsAux, show ((26 / 5 : ℝ))⁻¹ = 5 / 26 by norm_num]
    exact mul_le_mul_of_nonneg_left hg52 (by norm_num)
  have hm8 : millsAux 8 ≤ 1 / 8 * (1 / (2.7182818283 : ℝ) ^ 32) := by
    rw [millsAux]
    calc ((8 : ℝ)⁻¹ - (8 : ℝ)⁻¹ ^ 3) * gaussDensity 8
        ≤ 1 / 8 * gaussDensity 8 :=
          mul_le_mul_of_nonneg_right (by norm_num) (gaussDensity_nonneg 8)
      _ ≤ 1 / 8 * (1 / (2.7182818283 : ℝ) ^ 32) :=
          mul_le_mul_of_nonneg_left hg8 (by norm_num)
  have hsf52 := millsAux_sub_le_norm_sf (a := 26 / 5) (b := 8) (by norm_num) (by norm_num)
  have hnum : (3 : ℝ) / 10 ^ 8 <
      ((5 / 26 - (5 / 26) ^ 3) * (1 / (2.7182818286 : ℝ) ^ 14) -
        1 / 8 * (1 / (2.7182818283 : ℝ) ^ 32)) / 2.5067 := by
    norm_num
  have hAB : (0 : ℝ) ≤ (5 / 26 - (5 / 26) ^ 3) * (1 / (2.7182818286 : ℝ) ^ 14) -
      1 / 8 * (1 / (2.7182818283 : ℝ) ^ 32) := by norm_num
  have h1 : ((5 / 26 - (5 / 26) ^ 3) * (1 / (2.7182818286 : ℝ) ^ 14) -
        1 / 8 * (1 / (2.7182818283 : ℝ) ^ 32)) / 2.5067 ≤
      ((5 / 26 - (5 / 26) ^ 3) * (1 / (2.7182818286 : ℝ) ^ 14) -
        1 / 8 * (1 / (2.7182818283 : ℝ) ^ 32)) / Real.sqrt (2 * Real.pi) :=
    div_le_div_of_nonneg_left hAB sqrt_two_pi_pos sqrt_two_pi_lt.le
  have h2 : ((5 / 26 - (5 / 26) ^ 3) * (1 / (2.7182818286 : ℝ) ^ 14) -
        1 / 8 * (1 / (2.7182818283 : ℝ) ^ 32)) / Real.sqrt (2 * Real.pi) ≤
      (millsAux (26 / 5) - millsAux 8) / Real.sqrt (2 * Real.pi) :=
    (div_le_div_right sqrt_two_pi_pos).2 (by linarith)
  have hsf : 3 / 10 ^ 8 < norm_sf (26 / 5) := by linarith
  by_contra h
  push_neg at h
  have h3 := antitone_norm_sf h
  rw [norm_sf_zc_scenario] at h3
  linarith

lemma sqrt_scenario : Real.sqrt (1800 * var_g (1 / 5)) = 24 := by
  rw [show (1800 : ℝ) * var_g (1 / 5) = 576 by rw [var_g]; norm_num,
    show (576 : ℝ) = 24 ^ 2 by norm_num, Real.sqrt_sq (by norm_num)]

lemma ncp_scenario_24 : ncp 1800 (1 / 5) (6 / 25) 1 = 144 / 25 := by
  rw [ncp, sqrt_scenario]
  norm_num

lemma ncp_scenario_15 : ncp 1800 (1 / 5) (3 / 20) 1 = 18 / 5 := by
  rw [ncp, sqrt_scenario]
  norm_num

lemma power24_gt : 11 / 20 < analytic_power 1800 (1 / 5) (6 / 25) (6 / 10 ^ 8) 1 := by
  rw [analytic_power_eq, ncp_scenario_24, power_of_ncp]
  have hz := zc_scenario_lt
  have h1 : norm_sf (-4 / 25) ≤ norm_sf (z_cut (6 / 10 ^ 8) - 144 / 25) :=
    antitone_norm_sf (by linarith)
  have h2 : norm_sf (-4 / 25) = norm_cdf (4 / 25) := by
    rw [show (-4 / 25 : ℝ) = -(4 / 25) by norm_num, norm_sf_neg]
  have h3 := half_add_le_norm_cdf (x := 4 / 25) (by norm_num)
  have h4 : (617 : ℝ) / 625 ≤ gaussDensity (4 / 25) := by
    have := one_sub_le_gaussDensity (4 / 25)
    norm_num at this ⊢
    linarith
  have h5 : (11 / 20 : ℝ) < 1 / 2 + 4 / 25 * gaussDensity (4 / 25) / 2.5067 := by
    have : (11 / 20 : ℝ) < 1 / 2 + 4 / 25 * (617 / 625) / 2.5067 := by norm_num
    have hmono : (4 : ℝ) / 25 * (617 / 625) / 2.5067 ≤
        4 / 25 * gaussDensity (4 / 25) / 2.5067 :=
      (div_le_div_right (by norm_num)).2
        (mul_le_mul_of_nonneg_left h4 (by norm_num : (0 : ℝ) ≤ 4 / 25))
    linarith
  have h6 := norm_cdf_nonneg (-z_cut (6 / 10 ^ 8) - 144 / 25)
  linarith

lemma power24_lt : analytic_power 1800 (1 / 5) (6 / 25) (6 / 10 ^ 8) 1 < 3 / 4 := by
  rw [analytic_power_eq, ncp_scenario_24, power_of_ncp]
  have hz := zc_scenario_gt
  have h1 : norm_sf (z_cut (6 / 10 ^ 8) - 144 / 25) ≤ norm_sf (-14 / 25) :=
    antitone_norm_sf (by linarith)
  have h2 : norm_sf (-14 / 25) = norm_cdf (14 / 25) := by
    rw [show (-14 / 25 : ℝ) = -(14 / 25) by norm_num, norm_sf_neg]
  have h3 := norm_cdf_le_half_add (x := 14 / 25) (by norm_num)
  have h4 : norm_cdf (-z_cut (6 / 10 ^ 8) - 144 / 25) ≤ norm_cdf (-(274 / 25)) :=
    monotone_norm_cdf (by linarith)
  have h5 : norm_cdf (-(274 / 25)) = norm_sf (274 / 25) := norm_cdf_neg (274 / 25)
  have h6 : norm_sf (274 / 25) < 1 / 10 ^ 8 := by
    apply norm_sf_lt_num 16 (by norm_num) (by norm_num)
    norm_num
  have h7 : (1 / 2 : ℝ) + 14 / 25 / 2.5066 + 1 / 10 ^ 8 < 3 / 4 := by norm_num
  linarith

lemma power15_pos : 0 < analytic_power 1800 (1 / 5) (3 / 20) (6 / 10 ^ 8) 1 := by
  rw [analytic_power_eq, ncp_scenario_15, power_of_ncp]
  have h1 := norm_sf_pos (z_cut (6 / 10 ^ 8) - 18 / 5)
  have h2 := norm_cdf_nonneg (-z_cut (6 / 10 ^ 8) - 18 / 5)
  linarith

lemma power15_lt : analytic_power 1800 (1 / 5) (3 / 20) (6 / 10 ^ 8) 1 < 1 / 2 := by
  rw [analytic_power_eq, ncp_scenario_15, power_of_ncp]
  have hz := zc_scenario_gt
  have h1 : norm_sf (z_cut (6 / 10 ^ 8) - 18 / 5) ≤ norm_sf (8 / 5) :=
    antitone_norm_sf (by linarith)
  have h2 : norm_sf (8 / 5) = 1 - norm_cdf (8 / 5) := rfl
  have h3 := half_add_le_norm_cdf (x := 8 / 5) (by norm_num)
  have h4 : (1 : ℝ) / (2.7182818286 : ℝ) ^ 2 ≤ gaussDensity (8 / 5) :=
    le_gaussDensity_of_le 2 (by norm_num)
  have h5 : (1 / 2 : ℝ) + 8 / 5 * (1 / (2.7182818286 : ℝ) ^ 2) / 2.5067 ≤
      1 / 2 + 8 / 5 * gaussDensity (8 / 5) / 2.5067 := by
    have hd : (8 : ℝ) / 5 * (1 / (2.7182818286 : ℝ) ^ 2) / 2.5067 ≤
        8 / 5 * gaussDensity (8 / 5) / 2.5067 :=
      (div_le_div_right (by norm_num)).2
        (mul_le_mul_of_nonneg_left h4 (by norm_num : (0 : ℝ) ≤ 8 / 5))
    linarith
  have h6 : norm_cdf (-z_cut (6 / 10 ^ 8) - 18 / 5) ≤ norm_cdf (-(44 / 5)) :=
    monotone_norm_cdf (by linarith)
  have h7 : norm_cdf (-(44 / 5)) = norm_sf (44 / 5) := norm_cdf_neg (44 / 5)
  have h8 : norm_sf (44 / 5) < 1 / 10 ^ 8 := by
    apply norm_sf_lt_num 16 (by norm_num) (by norm_num)
    norm_num
  have h9 : (1 / 2 : ℝ) - (1 / 2 + 8 / 5 * (1 / (2.7182818286 : ℝ) ^ 2) / 2.5067) +
      1 / 10 ^ 8 < 0 := by norm_num
  linarith

/-- C7 counterexample: at n = 1800, maf = 0.20, beta = 0.24, p_thr = 6e-8,
sigma = 1, the power returned by the code is NOT within 0.05 of 0.50 (it
exceeds 0.55). -/
theorem power_concrete_not_half :
    ¬ |analytic_power 1800 (1 / 5) (6 / 25) (6 / 10 ^ 8) 1 - 1 / 2| ≤ 1 / 20 := by
  intro h
  rw [abs_le] at h
  have h2 := power24_gt
  linarith [h.2]

/-- C7 (amended): at n = 1800, maf = 0.20, p_thr = 6e-8, sigma = 1, the power
at beta = 0.24 lies strictly between 0.55 and 0.75 (numerically about 0.63,
not about 0.50), and the power at beta = 0.15 lies strictly between 0 and 0.5. -/
theorem power_concrete_bounds :
    (11 / 20 < analytic_power 1800 (1 / 5) (6 / 25) (6 / 10 ^ 8) 1 ∧
      analytic_power 1800 (1 / 5) (6 / 25) (6 / 10 ^ 8) 1 < 3 / 4) ∧
    (0 < analytic_power 1800 (1 / 5) (3 / 20) (6 / 10 ^ 8) 1 ∧
      analytic_power 1800 (1 / 5) (3 / 20) (6 / 10 ^ 8) 1 < 1 / 2) :=
  ⟨⟨power24_gt, power24_lt⟩, power15_pos, power15_lt⟩
